import Mathlib

/-!
Shallow embedding of the little-raft replica (src/little_raft/src/replica.rs).

The replica's mutable state is `Replica`; each Rust method becomes a Lean
function on `Replica`.  Calls to the external collaborators (the `Cluster`
and the user `StateMachine`) are recorded as a list of `Effect`s in program
order.  Machine integers (`usize`) are modelled as `Nat`; every place where
the Rust code can panic (index out of bounds, `usize` subtraction underflow
in an index computation) is modelled by returning `none`, so a handler has
type `Replica → ... → Option (Replica × List Effect)`.

`BTreeMap<usize, usize>` is modelled as an association list without
duplicate keys (`mapInsert` replaces an existing binding), `BTreeSet` as a
deduplicated list.
-/

namespace LittleRaft

/-- Modelled from the spec (LogEntry of the message schema; the file
little_raft/src/message.rs matching replica.rs is not in the sources, only a
legacy draft): a log entry `{ index, term, transition }`.  The opaque user
transition is represented by its stable id. -/
structure LogEntry where
  index : Nat
  term : Nat
  transition : Nat
  deriving DecidableEq

/-- Modelled from the spec: `Snapshot { last_included_index,
last_included_term, .. }` as used by replica.rs (only the two indices are
read by the replica; the state bytes are irrelevant to it). -/
structure Snapshot where
  last_included_index : Nat
  last_included_term : Nat
  deriving DecidableEq

/-- The three roles of `enum State` in replica.rs. -/
inductive Role where
  | Follower
  | Candidate
  | Leader
  deriving DecidableEq

/-- Modelled from the spec (message wire schema, section 6), matching the
fields replica.rs pattern-matches on. -/
inductive Message where
  | AppendEntryRequest (from_id term prev_log_index prev_log_term : Nat)
      (entries : List LogEntry) (commit_index : Nat)
  | AppendEntryResponse (from_id term : Nat) (success : Bool) (last_index : Nat)
      (mismatch_index : Option Nat)
  | VoteRequest (from_id term last_log_index last_log_term : Nat)
  | VoteResponse (from_id term : Nat) (vote_granted : Bool)
  deriving DecidableEq

/-- The externally visible transition states registered with the state
machine (`TransitionState` in state_machine.rs, modelled from the spec). -/
inductive TransitionState where
  | Queued
  | Committed
  | Applied
  deriving DecidableEq

/-- One call made by the replica to a collaborator (cluster or state
machine), recorded in program order. -/
inductive Effect where
  | send (peer : Nat) (msg : Message)
  | register_leader (leader : Option Nat)
  | apply_transition (transition : Nat)
  | register_transition_state (transition : Nat) (st : TransitionState)
  | create_snapshot (last_included_index last_included_term : Nat)
  deriving DecidableEq

/-- The replica state: the fields of `struct Replica` in replica.rs (the
collaborator handles and timers carry no replicated state and are omitted;
their calls appear as `Effect`s). -/
structure Replica where
  id : Nat
  peer_ids : List Nat
  current_term : Nat
  current_votes : Option (List Nat)
  state : Role
  voted_for : Option Nat
  log : List LogEntry
  commit_index : Nat
  last_applied : Nat
  next_index : List (Nat × Nat)
  match_index : List (Nat × Nat)
  noop_transition : Nat
  snapshot_delta : Nat
  snapshot : Option Snapshot
  index_offset : Nat
  deriving DecidableEq

/-- Models `BTreeMap::insert`: replace the binding of `k` or add it. -/
def mapInsert : List (Nat × Nat) → Nat → Nat → List (Nat × Nat)
  | [], k, v => [(k, v)]
  | (k1, v1) :: t, k, v =>
      if k1 = k then (k, v) :: t else (k1, v1) :: mapInsert t k v

/-- Models `BTreeMap` lookup; `none` where Rust `map[&k]` would panic. -/
def mapGet? : List (Nat × Nat) → Nat → Option Nat
  | [], _ => none
  | (k1, v1) :: t, k => if k1 = k then some v1 else mapGet? t k

/-- Models `Replica::new` (replica.rs lines 132-175).  `loaded_snapshot` is the
value returned by the state machine's `load_snapshot()`. -/
def Replica.new (id : Nat) (peer_ids : List Nat) (loaded_snapshot : Option Snapshot)
    (snapshot_delta : Nat) (noop_transition : Nat) : Replica :=
  { id := id
    peer_ids := peer_ids
    current_term := 0
    current_votes := none
    state := .Follower
    voted_for := none
    log := [⟨0, 0, noop_transition⟩]
    commit_index := 0
    last_applied := 0
    next_index := []
    match_index := []
    noop_transition := noop_transition
    snapshot_delta := snapshot_delta
    snapshot := loaded_snapshot
    index_offset :=
      match loaded_snapshot with
      | some sn => sn.last_included_index
      | none => 0 }

/-- Models `become_follower` (replica.rs lines 758-763). -/
def become_follower (s : Replica) (term : Nat) : Replica :=
  { s with current_term := term, state := .Follower,
           current_votes := none, voted_for := none }

/-- Models `become_leader` (replica.rs lines 733-756): reset the peer index maps
and append the no-op entry at the new leader's term.  The pushed entry's
`index` field is `log.len()` exactly as in the source. -/
def become_leader (s : Replica) : Replica × List Effect :=
  let s1 : Replica :=
    { s with state := .Leader, current_votes := none, voted_for := none,
             next_index := s.peer_ids.map (fun p => (p, s.log.length)),
             match_index := s.peer_ids.map (fun p => (p, 0)) }
  let s2 : Replica :=
    { s1 with log := s1.log ++ [⟨s1.log.length, s1.current_term, s1.noop_transition⟩] }
  (s2, [Effect.register_leader (some s.id)])

/-- Models `process_vote_request_as_follower` (replica.rs lines 473-534).  Note
that the `current_term > term` branch sends a refusal but does NOT return:
control falls through to the voting logic below it, exactly as in the
source.  The tail is read at physical position `log.len() - 1 -
index_offset`; when that subtraction underflows Rust panics, modelled as
`none`. -/
def process_vote_request_as_follower (s : Replica)
    (from_id term last_log_index last_log_term : Nat) :
    Option (Replica × List Effect) :=
  let step1 : Replica × List Effect :=
    if s.current_term > term then
      (s, [Effect.send from_id (.VoteResponse s.id s.current_term false)])
    else if s.current_term < term then
      (become_follower s term, [Effect.register_leader none])
    else (s, [])
  let s1 := step1.1
  let e1 := step1.2
  if s1.voted_for = none ∨ s1.voted_for = some from_id then
    if s1.index_offset + 1 ≤ s1.log.length then
      match s1.log[s1.log.length - 1 - s1.index_offset]? with
      | none => none
      | some tail =>
        if tail.index ≤ last_log_index ∧ tail.term ≤ last_log_term then
          some ({ s1 with voted_for := some from_id },
            e1 ++ [Effect.register_leader none,
                   Effect.send from_id (.VoteResponse s1.id s1.current_term true)])
        else
          some (s1, e1 ++ [Effect.send from_id (.VoteResponse s1.id s1.current_term false)])
    else none
  else
    some (s1, e1 ++ [Effect.send from_id (.VoteResponse s1.id s1.current_term false)])

/-- The entry-processing loop of `process_append_entry_request_as_follower`
(replica.rs lines 576-588): truncate on a term conflict at the entry's
translated position, then push the entry when it lands exactly at the tail.
The conflict check's index access `log[entry.index - index_offset]` is only
evaluated when `entry.index < log.len() + index_offset` (Rust `&&`
short-circuits); an underflowing translation panics (`none`). -/
def processEntries : Replica → List LogEntry → Option Replica
  | s, [] => some s
  | s, entry :: rest =>
    if entry.index < s.log.length + s.index_offset then
      if s.index_offset ≤ entry.index then
        match s.log[entry.index - s.index_offset]? with
        | none => none
        | some existing =>
          let s1 : Replica :=
            if entry.term ≠ existing.term then
              { s with log := s.log.take (entry.index - s.index_offset) }
            else s
          let s2 : Replica :=
            if entry.index = s1.log.length + s1.index_offset then
              { s1 with log := s1.log ++ [entry] }
            else s1
          processEntries s2 rest
      else none
    else
      let s2 : Replica :=
        if entry.index = s.log.length + s.index_offset then
          { s with log := s.log ++ [entry] }
        else s
      processEntries s2 rest

/-- Models `process_append_entry_request_as_follower` (replica.rs lines 536-613). -/
def process_append_entry_request_as_follower (s : Replica)
    (from_id term prev_log_index prev_log_term : Nat)
    (entries : List LogEntry) (commit_index : Nat) :
    Option (Replica × List Effect) :=
  if s.current_term > term then
    some (s, [Effect.send from_id
      (.AppendEntryResponse s.id s.current_term false (s.log.length - 1) none)])
  else if prev_log_index ≥ s.log.length then
    some (s, [Effect.send from_id
      (.AppendEntryResponse s.id s.current_term false
        (s.log.length + s.index_offset - 1) (some prev_log_index))])
  else
    if s.index_offset ≤ prev_log_index then
      match s.log[prev_log_index - s.index_offset]? with
      | none => none
      | some prevEntry =>
        if prevEntry.term ≠ prev_log_term then
          some (s, [Effect.send from_id
            (.AppendEntryResponse s.id s.current_term false
              (s.log.length + s.index_offset - 1) (some prev_log_index))])
        else
          match processEntries s entries with
          | none => none
          | some s1 =>
            let s2? : Option Replica :=
              if commit_index > s1.commit_index ∧ s1.log.length ≠ 0 then
                if s1.index_offset + 1 ≤ s1.log.length then
                  match s1.log[s1.log.length - 1 - s1.index_offset]? with
                  | none => none
                  | some tail =>
                    some { s1 with commit_index :=
                      if commit_index < tail.index then commit_index else tail.index }
                else none
              else some s1
            match s2? with
            | none => none
            | some s2 =>
              some (s2, [Effect.register_leader (some from_id),
                Effect.send from_id
                  (.AppendEntryResponse s2.id s2.current_term true (s2.log.length - 1) none)])
    else none

/-- Models `process_message_as_leader` (replica.rs lines 427-471): only
`AppendEntryResponse` is handled; everything else is ignored. -/
def process_message_as_leader (s : Replica) (m : Message) :
    Option (Replica × List Effect) :=
  match m with
  | .AppendEntryResponse from_id term success last_index mismatch_index =>
    if term > s.current_term then
      some (become_follower s term, [Effect.register_leader none])
    else if success then
      some ({ s with next_index := mapInsert s.next_index from_id (last_index + 1),
                     match_index := mapInsert s.match_index from_id last_index }, [])
    else
      match mismatch_index with
      | some mi =>
        match mapGet? s.next_index from_id with
        | none => none
        | some ni =>
          if mi < ni then
            some ({ s with
              next_index := mapInsert s.next_index from_id (min mi (last_index + 1)) }, [])
          else some (s, [])
      | none => some (s, [])
  | _ => some (s, [])

/-- Models `process_message_as_follower` (replica.rs lines 615-644): responses are
ignored. -/
def process_message_as_follower (s : Replica) (m : Message) :
    Option (Replica × List Effect) :=
  match m with
  | .VoteRequest from_id term lli llt =>
      process_vote_request_as_follower s from_id term lli llt
  | .AppendEntryRequest from_id term pli plt entries ci =>
      process_append_entry_request_as_follower s from_id term pli plt entries ci
  | _ => some (s, [])

/-- Models `process_vote_response_as_candidate` (replica.rs lines 664-685). -/
def process_vote_response_as_candidate (s : Replica)
    (from_id term : Nat) (vote_granted : Bool) :
    Option (Replica × List Effect) :=
  if term > s.current_term then
    some (become_follower s term, [Effect.register_leader none])
  else if vote_granted then
    match s.current_votes with
    | some votes =>
      let votes1 := if from_id ∈ votes then votes else from_id :: votes
      let s1 : Replica := { s with current_votes := some votes1 }
      if votes1.length * 2 > s1.peer_ids.length then
        some (become_leader s1)
      else some (s1, [])
    | none => some (s, [])
  else some (s, [])

/-- Models `process_vote_request_as_candidate` (replica.rs lines 687-707): step
down on a strictly higher term and re-dispatch the same message through the
follower logic. -/
def process_vote_request_as_candidate (s : Replica) (m : Message) :
    Option (Replica × List Effect) :=
  match m with
  | .VoteRequest from_id term _ _ =>
    if term > s.current_term then
      match process_message_as_follower (become_follower s term) m with
      | none => none
      | some (s2, e2) => some (s2, Effect.register_leader none :: e2)
    else
      some (s, [Effect.send from_id (.VoteResponse s.id s.current_term false)])
  | _ => some (s, [])

/-- Models `process_append_entry_request_as_candidate` (replica.rs lines 709-731):
step down on a greater-or-equal term and re-dispatch through the follower
logic. -/
def process_append_entry_request_as_candidate (s : Replica) (m : Message) :
    Option (Replica × List Effect) :=
  match m with
  | .AppendEntryRequest from_id term _ _ _ _ =>
    if term ≥ s.current_term then
      match process_message_as_follower (become_follower s term) m with
      | none => none
      | some (s2, e2) => some (s2, Effect.register_leader none :: e2)
    else
      some (s, [Effect.send from_id
        (.AppendEntryResponse s.id s.current_term false (s.log.length - 1) none)])
  | _ => some (s, [])

/-- Models `process_message_as_candidate` (replica.rs lines 646-662). -/
def process_message_as_candidate (s : Replica) (m : Message) :
    Option (Replica × List Effect) :=
  match m with
  | .AppendEntryRequest _ _ _ _ _ _ => process_append_entry_request_as_candidate s m
  | .VoteRequest _ _ _ _ => process_vote_request_as_candidate s m
  | .VoteResponse from_id term vg => process_vote_response_as_candidate s from_id term vg
  | _ => some (s, [])

/-- Models `load_new_transitions` (replica.rs lines 408-425): `pending` is the
list returned by the state machine's `get_pending_transitions()`; a leader
appends each transition at `index = log.len()` with its current term and
registers it `Queued`, any other role drops them. -/
def load_new_transitions (s : Replica) (pending : List Nat) : Replica × List Effect :=
  match pending with
  | [] => (s, [])
  | t :: rest =>
    if s.state = .Leader then
      let s1 : Replica := { s with log := s.log ++ [⟨s.log.length, s.current_term, t⟩] }
      let r := load_new_transitions s1 rest
      (r.1, Effect.register_transition_state t .Queued :: r.2)
    else load_new_transitions s rest

/-- Models `become_candidate` (replica.rs lines 765-786).  The broadcast
`VoteRequest` carries `last_log_index = log.len() + index_offset - 1` and
the term of the entry at physical position `log.len() - 1`; on an empty log
that access panics (`none`). -/
def become_candidate (s : Replica) : Option (Replica × List Effect) :=
  let s1 : Replica :=
    { s with current_term := s.current_term + 1, state := .Candidate,
             current_votes := some [s.id], voted_for := some s.id }
  match s1.log[s1.log.length - 1]? with
  | none => none
  | some tail =>
    let effs := s1.peer_ids.map (fun p => Effect.send p
      (.VoteRequest s1.id s1.current_term (s1.log.length + s1.index_offset - 1) tail.term))
    if s1.peer_ids.length = 0 then
      let r := become_leader s1
      some (r.1, effs ++ r.2)
    else some (s1, effs)

/-- Models `get_entries_for_peer` (replica.rs lines 334-336):
`log[next_index[peer] - index_offset .. log.len()]`; slicing panics when
the start underflows or exceeds the length (`none`). -/
def get_entries_for_peer (s : Replica) (peer_id : Nat) : Option (List LogEntry) :=
  match mapGet? s.next_index peer_id with
  | none => none
  | some ni =>
    if s.index_offset ≤ ni ∧ ni - s.index_offset ≤ s.log.length then
      some (s.log.drop (ni - s.index_offset))
    else none

/-- The `AppendEntryRequest` built for one peer by
`broadcast_append_entry_request` (replica.rs lines 241-250):
`prev_log_index = next_index[p] - 1 + index_offset` on the wire, while
`prev_log_term` is read at physical position `next_index[p] - 1 -
index_offset`. -/
def append_entry_request_for_peer (s : Replica) (peer_id : Nat) : Option Message :=
  match mapGet? s.next_index peer_id with
  | none => none
  | some ni =>
    if s.index_offset + 1 ≤ ni then
      match s.log[ni - 1 - s.index_offset]? with
      | none => none
      | some prevEntry =>
        match get_entries_for_peer s peer_id with
        | none => none
        | some entries =>
          some (.AppendEntryRequest s.id s.current_term (ni - 1 + s.index_offset)
            prevEntry.term entries s.commit_index)
    else none

/-- Models `broadcast_append_entry_request` (replica.rs lines 241-250), one send
per peer in order. -/
def broadcast_append_entry_request (s : Replica) : Option (List Effect) :=
  s.peer_ids.mapM (fun p => (append_entry_request_for_peer s p).map (Effect.send p))

/-- The fold over the `match_index` map counting peers whose match index is
at least `n` (replica.rs lines 347-351). -/
def num_replications (match_index : List (Nat × Nat)) (n : Nat) : Nat :=
  (match_index.filter (fun kv => decide (n ≤ kv.2))).length

/-- The leader's commit-advance loop (replica.rs lines 344-359): scan `n`
from `log.len() - 1` down while `n > commit_index`, setting
`commit_index := n` when a majority has `match_index ≥ n` AND the entry at
physical position `n - index_offset` carries the current term.  The log
access is only evaluated when the majority test passes (Rust `&&`
short-circuits); an out-of-bounds or underflowing access is `none`. -/
def advanceLoop (s : Replica) : Nat → Nat → Option Nat
  | 0, c => some c
  | n + 1, c =>
    if n + 1 ≤ c then some c
    else
      if num_replications s.match_index (n + 1) * 2 ≥ s.peer_ids.length then
        if s.index_offset ≤ n + 1 then
          match s.log[n + 1 - s.index_offset]? with
          | none => none
          | some e =>
            advanceLoop s n (if e.term = s.current_term then n + 1 else c)
        else none
      else advanceLoop s n c

/-- The `for i in old_commit + 1 ..= commit_index` loop registering
transitions `Committed` (replica.rs lines 361-366), with `k` iterations
remaining starting at absolute index `i`. -/
def register_committed_loop (s : Replica) : Nat → Nat → Option (List Effect)
  | _, 0 => some []
  | i, k + 1 =>
    if s.index_offset ≤ i then
      match s.log[i - s.index_offset]? with
      | none => none
      | some e =>
        match register_committed_loop s (i + 1) k with
        | none => none
        | some effs =>
          some (Effect.register_transition_state e.transition .Committed :: effs)
    else none

/-- The `Committed` registrations for `old_commit + 1 ..= commit_index`
(replica.rs lines 361-366). -/
def committed_effects (s : Replica) (old_commit : Nat) : Option (List Effect) :=
  register_committed_loop s (old_commit + 1) (s.commit_index - old_commit)

/-- The leader part of `apply_ready_entries` (replica.rs lines 343-367):
commit advance plus `Committed` registrations.  Non-leaders skip it; a
leader with an empty log would underflow on `log.len() - 1` (`none`). -/
def leader_advance (s : Replica) : Option (Replica × List Effect) :=
  if s.state = .Leader then
    if s.log.length = 0 then none
    else if s.commit_index < s.log.length - 1 then
      match advanceLoop s (s.log.length - 1) s.commit_index with
      | none => none
      | some c =>
        let s1 : Replica := { s with commit_index := c }
        match committed_effects s1 s.commit_index with
        | none => none
        | some effs => some (s1, effs)
    else some (s, [])
  else some (s, [])

/-- The `curr_delta` computation of the snapshot check (replica.rs lines
385-389): `last_applied - snapshot.last_included_index` when a snapshot
exists, else `last_applied`; an underflow panics (`none`). -/
def currDelta (s : Replica) (la : Nat) : Option Nat :=
  match s.snapshot with
  | some sn =>
      if sn.last_included_index ≤ la then some (la - sn.last_included_index) else none
  | none => some la

/-- One iteration of the apply loop of `apply_ready_entries` (replica.rs
lines 370-405): increment `last_applied`, apply the entry at its translated
position, register it `Applied`, then run the snapshot check, which the
source guards by `commit_index - last_applied == 1` (one entry still
pending) and `snapshot_delta > 0`.  On compaction the state machine builds
a snapshot at `(last_applied, log[last_applied - index_offset].term)`, the
log retains entries with `index > last_applied`, and `index_offset`
becomes `last_applied + 1`. -/
def applyStep (s : Replica) : Option (Replica × List Effect) :=
  let la := s.last_applied + 1
  let s0 : Replica := { s with last_applied := la }
  if s0.index_offset ≤ la then
    match s0.log[la - s0.index_offset]? with
    | none => none
    | some e =>
      let effs := [Effect.apply_transition e.transition,
                   Effect.register_transition_state e.transition .Applied]
      if s0.commit_index - la = 1 ∧ 0 < s0.snapshot_delta then
        match currDelta s0 la with
        | none => none
        | some cd =>
          if s0.snapshot_delta ≤ cd then
            some ({ s0 with snapshot := some ⟨la, e.term⟩,
                            log := s0.log.filter (fun l => decide (la < l.index)),
                            index_offset := la + 1 },
                  effs ++ [Effect.create_snapshot la e.term])
          else some (s0, effs)
      else some (s0, effs)
  else none

/-- The `while commit_index > last_applied` loop, fuelled; the caller
passes `commit_index - last_applied`, which is exactly the number of
iterations the Rust loop performs (each iteration increments
`last_applied` by one and leaves `commit_index` unchanged). -/
def applyLoopFuel : Nat → Replica → Option (Replica × List Effect)
  | 0, s => some (s, [])
  | n + 1, s =>
    if s.commit_index ≤ s.last_applied then some (s, [])
    else
      match applyStep s with
      | none => none
      | some (s1, e1) =>
        match applyLoopFuel n s1 with
        | none => none
        | some (s2, e2) => some (s2, e1 ++ e2)

/-- Models `apply_ready_entries` (replica.rs lines 339-406). -/
def apply_ready_entries (s : Replica) : Option (Replica × List Effect) :=
  match leader_advance s with
  | none => none
  | some (s1, e1) =>
    match applyLoopFuel (s1.commit_index - s1.last_applied) s1 with
    | none => none
    | some (s2, e2) => some (s2, e1 ++ e2)

/-- Labels naming which piece of the replica's event loop performed a step
(which handler `start`/the polls dispatched to). -/
inductive StepKind where
  | voteReq
  | appendReq
  | leaderMsg
  | voteResp
  | electionTimeout
  | loadTransitions
  | applyEntries
  deriving DecidableEq

/-- One state transition of the replica, as driven by `start` and the three
polls: role-dispatched message processing, the election-timeout transition
to candidate, draining pending transitions, and `apply_ready_entries`.
A `none` from a handler is a Rust panic: the process dies and no successor
state exists. -/
inductive Step : StepKind → Replica → Replica → Prop where
  | voteReqF (s s' : Replica) (from_id term lli llt : Nat) (effs : List Effect) :
      s.state = .Follower →
      process_vote_request_as_follower s from_id term lli llt = some (s', effs) →
      Step .voteReq s s'
  | appendReqF (s s' : Replica) (from_id term pli plt : Nat)
      (entries : List LogEntry) (ci : Nat) (effs : List Effect) :
      s.state = .Follower →
      process_append_entry_request_as_follower s from_id term pli plt entries ci
        = some (s', effs) →
      Step .appendReq s s'
  | leaderMsgStep (s s' : Replica) (m : Message) (effs : List Effect) :
      s.state = .Leader →
      process_message_as_leader s m = some (s', effs) →
      Step .leaderMsg s s'
  | candVoteReq (s s' : Replica) (m : Message) (effs : List Effect) :
      s.state = .Candidate →
      process_vote_request_as_candidate s m = some (s', effs) →
      Step .voteReq s s'
  | candAppendReq (s s' : Replica) (m : Message) (effs : List Effect) :
      s.state = .Candidate →
      process_append_entry_request_as_candidate s m = some (s', effs) →
      Step .appendReq s s'
  | candVoteResp (s s' : Replica) (from_id term : Nat) (vg : Bool) (effs : List Effect) :
      s.state = .Candidate →
      process_vote_response_as_candidate s from_id term vg = some (s', effs) →
      Step .voteResp s s'
  | timeout (s s' : Replica) (effs : List Effect) :
      s.state ≠ .Leader →
      become_candidate s = some (s', effs) →
      Step .electionTimeout s s'
  | loadT (s s' : Replica) (pending : List Nat) (effs : List Effect) :
      load_new_transitions s pending = (s', effs) →
      Step .loadTransitions s s'
  | applyE (s s' : Replica) (effs : List Effect) :
      apply_ready_entries s = some (s', effs) →
      Step .applyEntries s s'

/-- States reachable from `Replica::new` (with an arbitrary result of the
state machine's `load_snapshot()`) by replica steps. -/
inductive Reachable : Replica → Prop where
  | init (id : Nat) (peer_ids : List Nat) (loaded_snapshot : Option Snapshot)
      (snapshot_delta noop_transition : Nat) :
      Reachable (Replica.new id peer_ids loaded_snapshot snapshot_delta noop_transition)
  | step (k : StepKind) (s s' : Replica) :
      Reachable s → Step k s s' → Reachable s'

/-- Whether an effect list contains a `create_snapshot` call. -/
def has_snapshot_effect (effs : List Effect) : Bool :=
  effs.any (fun e => match e with
    | .create_snapshot _ _ => true
    | _ => false)

/-- Whether an effect list contains a granted vote reply. -/
def sends_grant (effs : List Effect) : Bool :=
  effs.any (fun e => match e with
    | .send _ (.VoteResponse _ _ g) => g
    | _ => false)

/-- The entry the follower's vote-grant check actually reads: physical
position `log.len() - 1 - index_offset` (replica.rs lines 497-498), with a
default for the out-of-bounds case. -/
def vote_check_entry (s : Replica) : LogEntry :=
  s.log.getD (s.log.length - 1 - s.index_offset) ⟨0, 0, 0⟩

/-- The retained entry carrying absolute index `n`, if any. -/
def entryAt? (s : Replica) (n : Nat) : Option LogEntry :=
  s.log.find? (fun e => decide (e.index = n))

/-- The absolute index of the last retained entry (its `index` field). -/
def last_absolute_index (s : Replica) : Nat :=
  match s.log.getLast? with
  | some e => e.index
  | none => 0

/-- Modelled from the spec's words (claim C2): the commit-advance condition
at absolute index `n` — a majority of the peer set has `match_index ≥ n`
and the entry at `n` carries the current term. -/
def spec_commit_cond (s : Replica) (n : Nat) : Bool :=
  decide (num_replications s.match_index n * 2 ≥ s.peer_ids.length) &&
  (match entryAt? s n with
   | some e => decide (e.term = s.current_term)
   | none => false)

/-- Modelled from the spec's words (claim C2): scan from the top absolute
index down to `commit_index + 1`, returning the first index meeting
`spec_commit_cond`, else `commit_index`. -/
def spec_scan_down (s : Replica) : Nat → Nat
  | 0 => s.commit_index
  | n + 1 =>
    if n + 1 ≤ s.commit_index then s.commit_index
    else if spec_commit_cond s (n + 1) then n + 1 else spec_scan_down s n

/-- Modelled from the spec's words (claim C2): the commit index the claim
says the leader advances to — the greatest absolute index not exceeding the
last log index satisfying `spec_commit_cond`. -/
def spec_leader_commit_advance (s : Replica) : Nat :=
  spec_scan_down s (last_absolute_index s)

/-- The commit-advance condition the code evaluates at `n` (replica.rs
lines 353-354): majority over `match_index`, and the entry at PHYSICAL
position `n - index_offset` carries the current term. -/
def advance_cond (s : Replica) (n : Nat) : Prop :=
  num_replications s.match_index n * 2 ≥ s.peer_ids.length ∧
  (s.log.getD (n - s.index_offset) ⟨0, 0, 0⟩).term = s.current_term

instance (s : Replica) (n : Nat) : Decidable (advance_cond s n) := by
  unfold advance_cond; infer_instance

/-! Concrete states used by the counterexamples and witnesses below. -/

/-- Claim C1's literal scenario: `snapshot_delta = 5`, no prior snapshot,
entries 1..5 committed in one batch (`commit_index = 5`). -/
def c1_batch5 : Replica :=
  { Replica.new 0 [1, 2] none 5 0 with
    log := [⟨0, 0, 0⟩, ⟨1, 1, 1⟩, ⟨2, 1, 2⟩, ⟨3, 1, 3⟩, ⟨4, 1, 4⟩, ⟨5, 1, 5⟩],
    commit_index := 5 }

/-- The same log extended by entry 6, committed through 6 in one batch. -/
def c1_batch6 : Replica :=
  { Replica.new 0 [1, 2] none 5 0 with
    log := [⟨0, 0, 0⟩, ⟨1, 1, 1⟩, ⟨2, 1, 2⟩, ⟨3, 1, 3⟩, ⟨4, 1, 4⟩, ⟨5, 1, 5⟩, ⟨6, 1, 6⟩],
    commit_index := 6 }

/-- A state one applyStep away from compaction: `snapshot_delta = 2`,
`commit_index = 3`, `last_applied = 1`. -/
def c1w_state : Replica :=
  { Replica.new 0 [1] none 2 0 with
    log := [⟨0, 0, 0⟩, ⟨1, 1, 1⟩, ⟨2, 1, 2⟩, ⟨3, 1, 3⟩],
    commit_index := 3, last_applied := 1 }

/-- The state `applyStep c1w_state` produces. -/
def c1w_s1 : Replica :=
  { c1w_state with
    last_applied := 2, snapshot := some ⟨2, 1⟩,
    log := [⟨3, 1, 3⟩], index_offset := 3 }

/-- The effects `applyStep c1w_state` produces. -/
def c1w_effs : List Effect :=
  [.apply_transition 2, .register_transition_state 2 .Applied, .create_snapshot 2 1]

/-- A post-compaction leader: retained entries carry absolute indices 2..4
at `index_offset = 2`, every peer has `match_index = 4` and the entry at
absolute index 4 carries the current term, yet `commit_index` is 2. -/
def c2_state : Replica :=
  { Replica.new 0 [1, 2] none 1 0 with
    state := .Leader, current_term := 1,
    log := [⟨2, 1, 2⟩, ⟨3, 1, 3⟩, ⟨4, 1, 4⟩],
    index_offset := 2, commit_index := 2, last_applied := 2,
    next_index := [(1, 3), (2, 3)], match_index := [(1, 4), (2, 4)],
    snapshot := some ⟨1, 1⟩ }

/-- An offset-0 leader used as a commit-advance witness. -/
def c2w_state : Replica :=
  { Replica.new 0 [1, 2] none 0 0 with
    state := .Leader, current_term := 1,
    log := [⟨0, 0, 0⟩, ⟨1, 1, 1⟩],
    next_index := [(1, 2), (2, 2)], match_index := [(1, 1), (2, 1)] }

/-- A post-compaction follower (`index_offset = 2`): the vote check reads
the entry at physical position 0 (absolute index 2, term 1) instead of the
tail (absolute index 4, term 3). -/
def c3_state : Replica :=
  { Replica.new 0 [1, 2] none 0 0 with
    current_term := 3,
    log := [⟨2, 1, 0⟩, ⟨3, 3, 0⟩, ⟨4, 3, 0⟩],
    index_offset := 2, commit_index := 4, last_applied := 4 }

/-- A follower at term 2 that has not voted, with the sentinel log. -/
def c4_state : Replica :=
  { Replica.new 5 [1, 2] none 0 0 with current_term := 2 }

/-- A post-compaction leader (`index_offset = 1`) with
`next_index[5] = 2`. -/
def c5_state : Replica :=
  { Replica.new 0 [5] none 0 0 with
    state := .Leader, current_term := 1,
    log := [⟨1, 1, 0⟩, ⟨2, 1, 0⟩], index_offset := 1,
    commit_index := 1, last_applied := 1,
    next_index := [(5, 2)], match_index := [(5, 0)] }

/-- An offset-0 leader used as a broadcast witness. -/
def c5w_state : Replica :=
  { Replica.new 0 [3] none 0 0 with
    state := .Leader, current_term := 1,
    log := [⟨0, 0, 0⟩, ⟨1, 1, 7⟩],
    next_index := [(3, 2)], match_index := [(3, 0)] }

/-- A leader with `next_index[7] = 10`, as in the spec's stale-response
scenario. -/
def c6w_state : Replica :=
  { Replica.new 0 [7] none 0 0 with
    state := .Leader, current_term := 5,
    next_index := [(7, 10)], match_index := [(7, 0)] }

/-- A state one applyStep away from compaction with `snapshot_delta = 1`. -/
def c7w_state : Replica :=
  { Replica.new 0 [1] none 1 0 with
    log := [⟨0, 0, 0⟩, ⟨1, 1, 1⟩, ⟨2, 1, 2⟩], commit_index := 2 }

/-- The state `applyStep c7w_state` produces. -/
def c7w_s1 : Replica :=
  { c7w_state with
    last_applied := 1, snapshot := some ⟨1, 1⟩,
    log := [⟨2, 1, 2⟩], index_offset := 2 }

/-- The effects `applyStep c7w_state` produces. -/
def c7w_effs : List Effect :=
  [.apply_transition 1, .register_transition_state 1 .Applied, .create_snapshot 1 1]

/-- A follower with `commit_index = 3` about to receive a conflicting
entry at index 1 from a term-2 leader. -/
def c8_state : Replica :=
  { Replica.new 0 [1] none 0 0 with
    current_term := 2, log := [⟨0, 0, 0⟩, ⟨1, 1, 1⟩, ⟨2, 1, 2⟩, ⟨3, 1, 3⟩],
    commit_index := 3, last_applied := 3 }

/-- A fresh single-peer follower about to hit its election timeout. -/
def c8w_pre : Replica := Replica.new 0 [1] none 0 0

/-- The state `become_candidate c8w_pre` produces. -/
def c8w_post : Replica :=
  { c8w_pre with
    current_term := 1, state := .Candidate,
    current_votes := some [0], voted_for := some 0 }

/-- The effects `become_candidate c8w_pre` produces. -/
def c8w_effs : List Effect := [.send 1 (.VoteRequest 0 1 0 0)]

/-- A replica constructed with a loaded snapshot
(`last_included_index = 2`): `index_offset = 2` but the log is the single
sentinel, so the vote check's position underflows. -/
def c10_state : Replica := Replica.new 0 [1, 2] (some ⟨2, 1⟩) 0 0

/-! Basic lemmas shared by the claim theorems. -/

theorem mapGet?_mapInsert_self (m : List (Nat × Nat)) (k v : Nat) :
    mapGet? (mapInsert m k v) k = some v := by
  induction m with
  | nil => simp [mapInsert, mapGet?]
  | cons kv t ih =>
    obtain ⟨k1, v1⟩ := kv
    by_cases h : k1 = k <;> simp [mapInsert, mapGet?, h, ih]

/-! Claim theorems. -/

/-- C9: `Replica::new` always initialises the log to the single sentinel
entry and zeroes `current_term`, `commit_index` and `last_applied`, for
every result of `load_snapshot()`; only `index_offset` depends on the
loaded snapshot, becoming its `last_included_index` (0 when none). -/
theorem c9_new_initialization (id : Nat) (peer_ids : List Nat)
    (ls : Option Snapshot) (delta noop : Nat) :
    (Replica.new id peer_ids ls delta noop).log = [⟨0, 0, noop⟩] ∧
    (Replica.new id peer_ids ls delta noop).current_term = 0 ∧
    (Replica.new id peer_ids ls delta noop).commit_index = 0 ∧
    (Replica.new id peer_ids ls delta noop).last_applied = 0 ∧
    (Replica.new id peer_ids ls delta noop).index_offset =
      (match ls with
       | some sn => sn.last_included_index
       | none => 0) := by
  refine ⟨rfl, rfl, rfl, rfl, ?_⟩
  cases ls <;> rfl

/-- C4 (code bug): a follower at term 2 receiving a VoteRequest with the
STALE term 1 replies `vote_granted: false` — and then, because the
stale-term branch does not return, falls through to the grant logic,
replies `vote_granted: true` and sets `voted_for := Some 1`. -/
theorem c4_stale_term_vote_still_granted :
    process_vote_request_as_follower c4_state 1 1 5 5 =
      some ({ c4_state with voted_for := some 1 },
        [Effect.send 1 (.VoteResponse 5 2 false),
         Effect.register_leader none,
         Effect.send 1 (.VoteResponse 5 2 true)]) := by
  decide

/-- C1 counterexample: in the claim's own scenario (`snapshot_delta = 5`,
no prior snapshot, entries 1..5 applied in one batch) the code invokes NO
`create_snapshot`, keeps `snapshot = none` and leaves `index_offset` at 0,
because the snapshot check requires `commit_index - last_applied == 1`
(one entry still pending), never 0, after the increment. -/
theorem c1_counterexample :
    (apply_ready_entries c1_batch5).map
        (fun r => (r.1.index_offset, r.1.snapshot, has_snapshot_effect r.2))
      = some (0, none, false) := by
  decide

/-- C2 counterexample: in the post-compaction leader state `c2_state`,
every peer's `match_index` is 4, the entry at absolute index 4 (the last
log index) carries the current term, and `commit_index = 2`, so the claim
demands an advance to 4; the code's scan is capped at the PHYSICAL
`log.len() - 1 = 2`, its guard `commit_index < log.len() - 1` fails, and
`commit_index` stays 2. -/
theorem c2_counterexample :
    (apply_ready_entries c2_state).map (fun r => r.1.commit_index) = some 2 ∧
    spec_leader_commit_advance c2_state = 4 ∧ (2 : Nat) ≠ 4 := by
  refine ⟨by decide, by decide, by decide⟩

/-- C3 counterexample: in the post-compaction follower `c3_state`
(`index_offset = 2`), the local tail entry has index 4 > the request's
`last_log_index = 2`, so the claim demands refusal; the code instead reads
the entry at physical position `log.len() - 1 - index_offset = 0`
(absolute index 2, term 1) and GRANTS the vote. -/
theorem c3_counterexample :
    (process_vote_request_as_follower c3_state 9 3 2 1).map
        (fun r => (sends_grant r.2, r.1.voted_for)) = some (true, some 9) ∧
    c3_state.log.getLast?.map LogEntry.index = some 4 ∧
    ¬ ((4 : Nat) ≤ 2) := by
  refine ⟨by decide, by decide, by decide⟩

/-- C5 counterexample: for the post-compaction leader `c5_state`
(`index_offset = 1`, `next_index[5] = 2`) the broadcast request carries
`prev_log_index = 2`, which is `next_index[5] - 1 + index_offset`, not
`next_index[5] - 1 = 1` as the claim states. -/
theorem c5_counterexample :
    append_entry_request_for_peer c5_state 5 =
      some (.AppendEntryRequest 0 1 2 1 [⟨2, 1, 0⟩] 1) ∧
    mapGet? c5_state.next_index 5 = some 2 ∧ (2 : Nat) ≠ 2 - 1 := by
  refine ⟨by decide, by decide, by decide⟩

/-- C8 counterexample: the follower `c8_state` has `commit_index = 3`; an
AppendEntryRequest at its own term carrying a conflicting entry at index 1
and leader commit 7 truncates the log and ASSIGNS `commit_index := 1 < 3`,
so commit_index is not non-decreasing under every message handler. -/
theorem c8_counterexample :
    (process_append_entry_request_as_follower c8_state 1 2 0 0 [⟨1, 2, 9⟩] 7).map
        (fun r => r.1.commit_index) = some 1 ∧
    c8_state.commit_index = 3 ∧ (1 : Nat) < 3 := by
  refine ⟨by decide, by decide, by decide⟩

/-- C10 counterexample: `c10_state` is reachable (it is a construction
with a loaded snapshot at `last_included_index = 2`), its log is the
non-empty sentinel, yet the vote-grant check's tail access at
`log.len() - 1 - index_offset` underflows (the handler panics, modelled as
`none`): the accesses are not all in bounds in every reachable state. -/
theorem c10_counterexample :
    Reachable c10_state ∧ c10_state.log ≠ [] ∧
    process_vote_request_as_follower c10_state 1 0 0 0 = none ∧
    c10_state.log.length < c10_state.index_offset + 1 :=
  ⟨Reachable.init 0 [1, 2] (some ⟨2, 1⟩) 0 0, by decide, by decide, by decide⟩

/-- C6: a leader processing a failed AppendEntryResponse whose term does
not exceed its own sets `next_index[from_id]` to
`min(mismatch_index, last_index + 1)` exactly when `mismatch_index` is
present and strictly below the current `next_index[from_id]`, and leaves it
unchanged otherwise. -/
theorem c6_mismatch_backup (s : Replica) (from_id term last_index : Nat)
    (mismatch_index : Option Nat) (ni : Nat)
    (hterm : term ≤ s.current_term)
    (hni : mapGet? s.next_index from_id = some ni) :
    ∃ s', process_message_as_leader s
        (.AppendEntryResponse from_id term false last_index mismatch_index)
          = some (s', []) ∧
      mapGet? s'.next_index from_id =
        some (match mismatch_index with
          | some mi => if mi < ni then min mi (last_index + 1) else ni
          | none => ni) := by
  have hng : ¬ (term > s.current_term) := by omega
  cases mismatch_index with
  | none =>
    exact ⟨s, by simp [process_message_as_leader, hng], by simpa using hni⟩
  | some mi =>
    by_cases hlt : mi < ni
    · refine ⟨{ s with
        next_index := mapInsert s.next_index from_id (min mi (last_index + 1)) },
        ?_, ?_⟩
      · simp [process_message_as_leader, hng, hni, hlt]
      · simpa [hlt] using mapGet?_mapInsert_self s.next_index from_id (min mi (last_index + 1))
    · exact ⟨s, by simp [process_message_as_leader, hng, hni, hlt], by simpa [hlt] using hni⟩

/-- C6 witness: the spec's stale-response scenario — `next_index[7] = 10`,
a delayed rejection with `mismatch_index = 12` leaves it at 10. -/
theorem c6_witness :
    ∃ s', process_message_as_leader c6w_state
        (.AppendEntryResponse 7 5 false 20 (some 12)) = some (s', []) ∧
      mapGet? s'.next_index 7 = some 10 :=
  c6_mismatch_backup c6w_state 7 5 20 (some 12) 10 (by decide) (by decide)

/-- C7: whenever an apply-loop iteration performs compaction (calls
`create_snapshot`), the resulting state satisfies
`index_offset = last_applied + 1` and every retained entry has
`index ≥ index_offset`. -/
theorem c7_compaction_invariant (s s1 : Replica) (effs : List Effect) (i t : Nat)
    (h : applyStep s = some (s1, effs))
    (hsnap : Effect.create_snapshot i t ∈ effs) :
    s1.index_offset = s1.last_applied + 1 ∧
    ∀ e ∈ s1.log, s1.index_offset ≤ e.index := by
  simp only [applyStep] at h
  split at h
  · split at h
    · simp at h
    · split at h
      · split at h
        · simp at h
        · split at h
          · rw [Option.some.injEq, Prod.mk.injEq] at h
            obtain ⟨h1, h2⟩ := h
            subst h1; subst h2
            refine ⟨rfl, fun e' he' => ?_⟩
            simp only [List.mem_filter, decide_eq_true_eq] at he'
            exact he'.2
          · rw [Option.some.injEq, Prod.mk.injEq] at h
            obtain ⟨h1, h2⟩ := h
            subst h2
            simp at hsnap
      · rw [Option.some.injEq, Prod.mk.injEq] at h
        obtain ⟨h1, h2⟩ := h
        subst h2
        simp at hsnap
  · simp at h

/-- C7 witness: `applyStep c7w_state` compacts, and the produced state has
`index_offset = last_applied + 1 = 2` with every retained entry at index
at least 2. -/
theorem c7_witness :
    c7w_s1.index_offset = c7w_s1.last_applied + 1 ∧
    ∀ e ∈ c7w_s1.log, c7w_s1.index_offset ≤ e.index :=
  c7_compaction_invariant c7w_state c7w_s1 c7w_effs 1 1 (by decide) (by decide)

/-- C1 (amended): in the apply loop the snapshot check runs exactly when
`commit_index - last_applied == 1` after the increment (one entry still
pending, the PENULTIMATE apply of the batch) and `snapshot_delta > 0`; when
additionally the delta since the last snapshot reaches `snapshot_delta`,
`create_snapshot(last_applied, log[last_applied].term)` is invoked, entries
with index ≤ last_applied are dropped and `index_offset` becomes
`last_applied + 1`.  Consequently, with `snapshot_delta = 5` and no prior
snapshot, applying entries 1..6 in one batch snapshots at entry 5 and sets
`index_offset` to 6. -/
theorem c1_amended :
    (∀ s s1 effs, applyStep s = some (s1, effs) →
      (((∃ i t, Effect.create_snapshot i t ∈ effs) ↔
          (s.commit_index - (s.last_applied + 1) = 1 ∧ 0 < s.snapshot_delta ∧
           ∃ cd, currDelta s (s.last_applied + 1) = some cd ∧ s.snapshot_delta ≤ cd)) ∧
        (∀ i t, Effect.create_snapshot i t ∈ effs →
          i = s.last_applied + 1 ∧
          (s.log[s.last_applied + 1 - s.index_offset]?).map LogEntry.term = some t ∧
          s1.index_offset = s.last_applied + 2 ∧
          s1.log = s.log.filter (fun l => decide (s.last_applied + 1 < l.index))))) ∧
    (apply_ready_entries c1_batch6).map
        (fun r => (r.1.index_offset, r.1.snapshot, has_snapshot_effect r.2))
      = some (6, some ⟨5, 1⟩, true) := by
  constructor
  · intro s s1 effs h
    simp only [applyStep] at h
    split at h
    · rename_i hoff
      split at h
      · simp at h
      · rename_i e heq
        split at h
        · rename_i hcond
          split at h
          · simp at h
          · rename_i cd heqcd
            split at h
            · rename_i hge
              rw [Option.some.injEq, Prod.mk.injEq] at h
              obtain ⟨h1, h2⟩ := h
              subst h1; subst h2
              constructor
              · constructor
                · intro _
                  exact ⟨hcond.1, hcond.2, cd, heqcd, hge⟩
                · intro _
                  exact ⟨s.last_applied + 1, e.term, by simp⟩
              · intro i t hmem
                simp at hmem
                obtain ⟨rfl, rfl⟩ := hmem
                exact ⟨rfl, by simp [heq], rfl, rfl⟩
            · rename_i hge
              rw [Option.some.injEq, Prod.mk.injEq] at h
              obtain ⟨h1, h2⟩ := h
              subst h2
              have hcd2 : currDelta s (s.last_applied + 1) = some cd := heqcd
              constructor
              · constructor
                · intro hx; simp at hx
                · rintro ⟨hc1, hc2, cd', heqcd', hge'⟩
                  rw [hcd2] at heqcd'
                  obtain rfl := Option.some.inj heqcd'
                  exact absurd hge' hge
              · intro i t hmem; simp at hmem
        · rename_i hcond
          rw [Option.some.injEq, Prod.mk.injEq] at h
          obtain ⟨h1, h2⟩ := h
          subst h2
          constructor
          · constructor
            · intro hx; simp at hx
            · rintro ⟨hc1, hc2, _⟩
              exact absurd ⟨hc1, hc2⟩ hcond
          · intro i t hmem; simp at hmem
    · simp at h
  · decide

/-- C1 witness: `applyStep c1w_state` (commit 3, just-applied 2, delta 2)
fires the snapshot check and compacts, instantiating the amended claim. -/
theorem c1_witness :
    ((∃ i t, Effect.create_snapshot i t ∈ c1w_effs) ↔
        (c1w_state.commit_index - (c1w_state.last_applied + 1) = 1 ∧
         0 < c1w_state.snapshot_delta ∧
         ∃ cd, currDelta c1w_state (c1w_state.last_applied + 1) = some cd ∧
           c1w_state.snapshot_delta ≤ cd)) ∧
      (∀ i t, Effect.create_snapshot i t ∈ c1w_effs →
        i = c1w_state.last_applied + 1 ∧
        (c1w_state.log[c1w_state.last_applied + 1 - c1w_state.index_offset]?).map
            LogEntry.term = some t ∧
        c1w_s1.index_offset = c1w_state.last_applied + 2 ∧
        c1w_s1.log = c1w_state.log.filter
          (fun l => decide (c1w_state.last_applied + 1 < l.index))) :=
  c1_amended.1 c1w_state c1w_s1 c1w_effs (by decide)

theorem getElem?_eq_some_getD {α : Type} (l : List α) (i : Nat) (d : α)
    (h : i < l.length) : l[i]? = some (l.getD i d) := by
  rw [List.getElem?_eq_getElem h, List.getD_eq_getElem l d h]

theorem advanceLoop_stop (s : Replica) (n c : Nat) (h : n ≤ c) :
    advanceLoop s n c = some c := by
  cases n with
  | zero => rfl
  | succ n => simp only [advanceLoop, if_pos h]

theorem advanceLoop_char (s : Replica) (n c : Nat)
    (hoff : s.index_offset ≤ c + 1) (hn : n < s.log.length + s.index_offset) :
    ∃ r, advanceLoop s n c = some r ∧
      ((r = c ∧ ∀ m, c < m → m ≤ n → ¬ advance_cond s m) ∨
       (c < r ∧ r ≤ n ∧ advance_cond s r ∧
        ∀ m, r < m → m ≤ n → ¬ advance_cond s m)) := by
  induction n with
  | zero =>
    exact ⟨c, rfl, Or.inl ⟨rfl, fun m h1 h2 => absurd (h1.trans_le h2) (by omega)⟩⟩
  | succ n ih =>
    by_cases hstop : n + 1 ≤ c
    · refine ⟨c, advanceLoop_stop s (n + 1) c hstop, Or.inl ⟨rfl, ?_⟩⟩
      intro m h1 h2
      omega
    · rw [show advanceLoop s (n + 1) c
          = (if n + 1 ≤ c then some c
             else if num_replications s.match_index (n + 1) * 2 ≥ s.peer_ids.length then
               if s.index_offset ≤ n + 1 then
                 match s.log[n + 1 - s.index_offset]? with
                 | none => none
                 | some e => advanceLoop s n (if e.term = s.current_term then n + 1 else c)
               else none
             else advanceLoop s n c) from rfl, if_neg hstop]
      by_cases hcnt : num_replications s.match_index (n + 1) * 2 ≥ s.peer_ids.length
      · rw [if_pos hcnt, if_pos (show s.index_offset ≤ n + 1 by omega)]
        rw [getElem?_eq_some_getD s.log (n + 1 - s.index_offset) ⟨0, 0, 0⟩ (by omega)]
        rw [show (match some (s.log.getD (n + 1 - s.index_offset) ⟨0, 0, 0⟩) with
              | none => none
              | some e => advanceLoop s n (if e.term = s.current_term then n + 1 else c))
            = advanceLoop s n
                (if (s.log.getD (n + 1 - s.index_offset) ⟨0, 0, 0⟩).term = s.current_term
                 then n + 1 else c) from rfl]
        by_cases hterm :
            (s.log.getD (n + 1 - s.index_offset) ⟨0, 0, 0⟩).term = s.current_term
        · rw [if_pos hterm]
          refine ⟨n + 1, advanceLoop_stop s n (n + 1) (by omega), Or.inr
            ⟨by omega, le_refl _, ⟨hcnt, hterm⟩, fun m h1 h2 => by omega⟩⟩
        · rw [if_neg hterm]
          obtain ⟨r, hr, hdisj⟩ := ih (by omega)
          have hnot : ¬ advance_cond s (n + 1) := fun hc => hterm hc.2
          refine ⟨r, hr, ?_⟩
          rcases hdisj with ⟨h1, h2⟩ | ⟨h1, h2, h3, h4⟩
          · exact Or.inl ⟨h1, fun m hm1 hm2 => by
              rcases Nat.lt_succ_iff_lt_or_eq.mp (Nat.lt_succ_of_le hm2) with h' | h'
              · exact h2 m hm1 (by omega)
              · subst h'; exact hnot⟩
          · exact Or.inr ⟨h1, by omega, h3, fun m hm1 hm2 => by
              rcases Nat.lt_succ_iff_lt_or_eq.mp (Nat.lt_succ_of_le hm2) with h' | h'
              · exact h4 m hm1 (by omega)
              · subst h'; exact hnot⟩
      · rw [if_neg hcnt]
        obtain ⟨r, hr, hdisj⟩ := ih (by omega)
        have hnot : ¬ advance_cond s (n + 1) := fun hc => hcnt hc.1
        refine ⟨r, hr, ?_⟩
        rcases hdisj with ⟨h1, h2⟩ | ⟨h1, h2, h3, h4⟩
        · exact Or.inl ⟨h1, fun m hm1 hm2 => by
            rcases Nat.lt_succ_iff_lt_or_eq.mp (Nat.lt_succ_of_le hm2) with h' | h'
            · exact h2 m hm1 (by omega)
            · subst h'; exact hnot⟩
        · exact Or.inr ⟨h1, by omega, h3, fun m hm1 hm2 => by
            rcases Nat.lt_succ_iff_lt_or_eq.mp (Nat.lt_succ_of_le hm2) with h' | h'
            · exact h4 m hm1 (by omega)
            · subst h'; exact hnot⟩

theorem register_committed_loop_isSome (s : Replica) (k i : Nat)
    (h1 : s.index_offset ≤ i) (h2 : i + k ≤ s.log.length + s.index_offset) :
    (register_committed_loop s i k).isSome := by
  induction k generalizing i with
  | zero => rfl
  | succ k ih =>
    rw [register_committed_loop, if_pos h1]
    rw [getElem?_eq_some_getD s.log (i - s.index_offset) ⟨0, 0, 0⟩ (by omega)]
    obtain ⟨effs, heffs⟩ :=
      Option.isSome_iff_exists.mp (ih (i + 1) (by omega) (by omega))
    rw [heffs]
    rfl

/-- C2 (amended): in `apply_ready_entries` a leader advances
`commit_index` to the greatest index `n` not exceeding `log.len() - 1`
(the PHYSICAL length minus one — equal to the last log index when
`index_offset = 0`) such that at least half the peer set has
`match_index ≥ n` AND the entry at physical position `n - index_offset`
carries the current term; when no such `n` exists `commit_index` is
unchanged, and whenever it advances, the examined entry's term equals
`current_term` (so prior-term entries commit only transitively). -/
theorem c2_amended (s : Replica)
    (hrole : s.state = .Leader)
    (hne : s.log ≠ [])
    (hoff : s.index_offset ≤ s.commit_index + 1) :
    ∃ s' effs, leader_advance s = some (s', effs) ∧
      ((s'.commit_index = s.commit_index ∧
        ∀ m, s.commit_index < m → m ≤ s.log.length - 1 → ¬ advance_cond s m) ∨
       (s.commit_index < s'.commit_index ∧ s'.commit_index ≤ s.log.length - 1 ∧
        advance_cond s s'.commit_index ∧
        ∀ m, s'.commit_index < m → m ≤ s.log.length - 1 → ¬ advance_cond s m)) ∧
      (s.commit_index < s'.commit_index →
        (s.log.getD (s'.commit_index - s.index_offset) ⟨0, 0, 0⟩).term
          = s.current_term) := by
  have hlen : s.log.length ≠ 0 := fun h => hne (List.length_eq_zero.mp h)
  by_cases hlt : s.commit_index < s.log.length - 1
  · obtain ⟨r, hr, hdisj⟩ := advanceLoop_char s (s.log.length - 1) s.commit_index
      hoff (by omega)
    have hrange : s.commit_index ≤ r ∧ r ≤ s.log.length - 1 := by
      rcases hdisj with ⟨h1, _⟩ | ⟨h1, h2, _, _⟩
      · omega
      · omega
    obtain ⟨effs, heffs⟩ := Option.isSome_iff_exists.mp
      (register_committed_loop_isSome { s with commit_index := r }
        (r - s.commit_index) (s.commit_index + 1)
        (show s.index_offset ≤ s.commit_index + 1 by omega)
        (show s.commit_index + 1 + (r - s.commit_index)
            ≤ s.log.length + s.index_offset by omega))
    refine ⟨{ s with commit_index := r }, effs, ?_, ?_, ?_⟩
    · unfold leader_advance
      rw [if_pos hrole, if_neg hlen, if_pos hlt, hr]
      show (match committed_effects { s with commit_index := r } s.commit_index with
            | none => none
            | some effs => some ({ s with commit_index := r }, effs)) = _
      rw [show committed_effects { s with commit_index := r } s.commit_index
          = register_committed_loop { s with commit_index := r }
              (s.commit_index + 1) (r - s.commit_index) from rfl]
      rw [heffs]
    · rcases hdisj with ⟨h1, h2⟩ | ⟨h1, h2, h3, h4⟩
      · exact Or.inl ⟨h1, h2⟩
      · exact Or.inr ⟨h1, h2, h3, h4⟩
    · intro hadv
      rcases hdisj with ⟨h1, _⟩ | ⟨_, _, h3, _⟩
      · simp only [h1] at hadv
        omega
      · exact h3.2
  · refine ⟨s, [], ?_, Or.inl ⟨rfl, fun m hm1 hm2 => by omega⟩, fun h => by omega⟩
    unfold leader_advance
    rw [if_pos hrole, if_neg hlen, if_neg hlt]

/-- C2 witness: the offset-0 leader `c2w_state` (both peers report
`match_index = 1`, entry 1 carries the current term) advances
`commit_index` to 1 through `leader_advance`. -/
theorem c2w_holds :
    ∃ s' effs, leader_advance c2w_state = some (s', effs) ∧
      ((s'.commit_index = c2w_state.commit_index ∧
        ∀ m, c2w_state.commit_index < m → m ≤ c2w_state.log.length - 1 →
          ¬ advance_cond c2w_state m) ∨
       (c2w_state.commit_index < s'.commit_index ∧
        s'.commit_index ≤ c2w_state.log.length - 1 ∧
        advance_cond c2w_state s'.commit_index ∧
        ∀ m, s'.commit_index < m → m ≤ c2w_state.log.length - 1 →
          ¬ advance_cond c2w_state m)) ∧
      (c2w_state.commit_index < s'.commit_index →
        (c2w_state.log.getD (s'.commit_index - c2w_state.index_offset)
            ⟨0, 0, 0⟩).term = c2w_state.current_term) :=
  c2_amended c2w_state (by decide) (by decide) (by decide)

/-- C5 (amended): every AppendEntryRequest a leader broadcasts to peer `p`
carries `prev_log_index = next_index[p] - 1 + index_offset` on the wire
(equal to `next_index[p] - 1` exactly when `index_offset = 0`),
`prev_log_term` read at physical position `next_index[p] - 1 -
index_offset` — which, when the retained log is contiguous from
`index_offset`, is the entry with absolute index `next_index[p] - 1` —
`entries` equal to the log suffix from physical position
`next_index[p] - index_offset` (all of whose entries then have absolute
index ≥ `next_index[p]`), and the leader's current `commit_index`. -/
theorem c5_amended (s : Replica) (p ni : Nat)
    (hni : mapGet? s.next_index p = some ni)
    (hlo : s.index_offset + 1 ≤ ni)
    (hhi : ni - s.index_offset ≤ s.log.length)
    (hcontig : ∀ i, i < s.log.length →
      (s.log.getD i ⟨0, 0, 0⟩).index = s.index_offset + i) :
    append_entry_request_for_peer s p =
      some (.AppendEntryRequest s.id s.current_term (ni - 1 + s.index_offset)
        (s.log.getD (ni - 1 - s.index_offset) ⟨0, 0, 0⟩).term
        (s.log.drop (ni - s.index_offset)) s.commit_index) ∧
    (s.log.getD (ni - 1 - s.index_offset) ⟨0, 0, 0⟩).index = ni - 1 ∧
    ∀ e ∈ s.log.drop (ni - s.index_offset), ni ≤ e.index := by
  have hb : ni - 1 - s.index_offset < s.log.length := by omega
  refine ⟨?_, ?_, ?_⟩
  · unfold append_entry_request_for_peer
    rw [hni]
    show (if s.index_offset + 1 ≤ ni then
        match s.log[ni - 1 - s.index_offset]? with
        | none => none
        | some prevEntry =>
          match get_entries_for_peer s p with
          | none => none
          | some entries =>
            some (Message.AppendEntryRequest s.id s.current_term (ni - 1 + s.index_offset)
              prevEntry.term entries s.commit_index)
      else none) = _
    rw [if_pos hlo]
    rw [getElem?_eq_some_getD s.log (ni - 1 - s.index_offset) ⟨0, 0, 0⟩ hb]
    show (match get_entries_for_peer s p with
          | none => none
          | some entries =>
            some (Message.AppendEntryRequest s.id s.current_term (ni - 1 + s.index_offset)
              (s.log.getD (ni - 1 - s.index_offset) ⟨0, 0, 0⟩).term
              entries s.commit_index)) = _
    rw [show get_entries_for_peer s p
        = some (s.log.drop (ni - s.index_offset)) by
      unfold get_entries_for_peer
      rw [hni]
      show (if s.index_offset ≤ ni ∧ ni - s.index_offset ≤ s.log.length
            then some (s.log.drop (ni - s.index_offset)) else none) = _
      rw [if_pos ⟨by omega, hhi⟩]]
  · rw [hcontig (ni - 1 - s.index_offset) hb]
    omega
  · intro e he
    obtain ⟨j, hj, hje⟩ := List.mem_iff_getElem.mp he
    have hj' : ni - s.index_offset + j < s.log.length := by
      have := hj
      simp only [List.length_drop] at this
      omega
    have : e = s.log.getD (ni - s.index_offset + j) ⟨0, 0, 0⟩ := by
      rw [List.getD_eq_getElem s.log ⟨0, 0, 0⟩ hj']
      rw [← hje]
      exact List.getElem_drop s.log
    rw [this, hcontig (ni - s.index_offset + j) hj']
    omega

/-- C5 witness: the offset-0 leader `c5w_state` with `next_index[3] = 2`
broadcasts `prev_log_index = 1 = next_index[3] - 1`, the term of entry 1,
the empty suffix from position 2, and its `commit_index = 0`. -/
theorem c5w_holds :
    append_entry_request_for_peer c5w_state 3 =
      some (.AppendEntryRequest c5w_state.id c5w_state.current_term
        (2 - 1 + c5w_state.index_offset)
        (c5w_state.log.getD (2 - 1 - c5w_state.index_offset) ⟨0, 0, 0⟩).term
        (c5w_state.log.drop (2 - c5w_state.index_offset)) c5w_state.commit_index) ∧
    (c5w_state.log.getD (2 - 1 - c5w_state.index_offset) ⟨0, 0, 0⟩).index = 2 - 1 ∧
    ∀ e ∈ c5w_state.log.drop (2 - c5w_state.index_offset), 2 ≤ e.index :=
  c5_amended c5w_state 3 2 (by decide) (by decide) (by decide) (by decide)

/-- C3 (amended): for a VoteRequest with term at least the follower's
`current_term`, the vote is granted — reply `vote_granted: true`, set
`voted_for := Some from_id` — if and only if the vote `voted_for` holds
AFTER the possible step-down (cleared when the request's term is strictly
higher) is `None` or `Some from_id`, AND the entry at physical position
`log.len() - 1 - index_offset` (the local tail when `index_offset = 0`)
has index ≤ `last_log_index` and term ≤ `last_log_term`; otherwise the
reply is `vote_granted: false` and `voted_for` keeps that post-step-down
value. -/
theorem c3_amended (s : Replica) (from_id term lli llt : Nat)
    (hterm : s.current_term ≤ term)
    (hlen : s.index_offset + 1 ≤ s.log.length) :
    ∃ s' effs, process_vote_request_as_follower s from_id term lli llt
        = some (s', effs) ∧
      ((sends_grant effs = true) ↔
        (((if s.current_term < term then none else s.voted_for) = none ∨
          (if s.current_term < term then none else s.voted_for) = some from_id) ∧
         (vote_check_entry s).index ≤ lli ∧ (vote_check_entry s).term ≤ llt)) ∧
      (sends_grant effs = true → s'.voted_for = some from_id) ∧
      (sends_grant effs = false →
        s'.voted_for = (if s.current_term < term then none else s.voted_for) ∧
        Effect.send from_id (.VoteResponse s.id
          (if s.current_term < term then term else s.current_term) false) ∈ effs) := by
  have hgt : ¬ (s.current_term > term) := by omega
  have hpos : s.log.length - 1 - s.index_offset < s.log.length := by omega
  have hget : s.log[s.log.length - 1 - s.index_offset]? = some (vote_check_entry s) := by
    unfold vote_check_entry
    exact getElem?_eq_some_getD s.log (s.log.length - 1 - s.index_offset) ⟨0, 0, 0⟩ hpos
  by_cases hlt : s.current_term < term
  · by_cases hc : (vote_check_entry s).index ≤ lli ∧ (vote_check_entry s).term ≤ llt
    · refine ⟨{ become_follower s term with voted_for := some from_id },
        [Effect.register_leader none, Effect.register_leader none,
         Effect.send from_id (.VoteResponse s.id term true)], ?_, ?_, ?_, ?_⟩
      · simp [process_vote_request_as_follower, hgt, hlt, become_follower, hget, hc, hlen]
      · simp only [sends_grant, List.any_cons, List.any_nil]
        simp [if_pos hlt, hc]
      · intro _; rfl
      · intro hfalse
        simp [sends_grant] at hfalse
    · refine ⟨become_follower s term,
        [Effect.register_leader none,
         Effect.send from_id (.VoteResponse s.id term false)], ?_, ?_, ?_, ?_⟩
      · simp [process_vote_request_as_follower, hgt, hlt, become_follower, hget, hc, hlen]
      · simp only [sends_grant, List.any_cons, List.any_nil]
        simp [if_pos hlt, hc]
      · intro htrue
        simp [sends_grant] at htrue
      · intro _
        refine ⟨by simp [become_follower, if_pos hlt], ?_⟩
        simp [if_pos hlt]
  · have heq : s.current_term = term := by omega
    by_cases hvf : s.voted_for = none ∨ s.voted_for = some from_id
    · by_cases hc : (vote_check_entry s).index ≤ lli ∧ (vote_check_entry s).term ≤ llt
      · refine ⟨{ s with voted_for := some from_id },
          [Effect.register_leader none,
           Effect.send from_id (.VoteResponse s.id s.current_term true)], ?_, ?_, ?_, ?_⟩
        · simp [process_vote_request_as_follower, hgt, hlt, hvf, hget, hc, hlen]
        · simp only [sends_grant, List.any_cons, List.any_nil]
          simp [if_neg hlt, hvf, hc]
        · intro _; rfl
        · intro hfalse
          simp [sends_grant] at hfalse
      · refine ⟨s, [Effect.send from_id (.VoteResponse s.id s.current_term false)],
          ?_, ?_, ?_, ?_⟩
        · simp [process_vote_request_as_follower, hgt, hlt, hvf, hget, hc, hlen]
        · simp only [sends_grant, List.any_cons, List.any_nil]
          simp [if_neg hlt, hc]
        · intro htrue
          simp [sends_grant] at htrue
        · intro _
          exact ⟨by simp [if_neg hlt], by simp [if_neg hlt]⟩
    · refine ⟨s, [Effect.send from_id (.VoteResponse s.id s.current_term false)],
        ?_, ?_, ?_, ?_⟩
      · simp [process_vote_request_as_follower, hgt, hlt, hvf, hlen]
      · simp only [sends_grant, List.any_cons, List.any_nil]
        simp [if_neg hlt, hvf]
      · intro htrue
        simp [sends_grant] at htrue
      · intro _
        exact ⟨by simp [if_neg hlt], by simp [if_neg hlt]⟩

/-- C3 witness: a fresh follower (term 0, no vote cast, sentinel log)
receiving `VoteRequest{from 2, term 0, last_log_index 0, last_log_term 0}`
grants the vote, matching the amended characterisation. -/
theorem c3w_holds :
    ∃ s' effs, process_vote_request_as_follower (Replica.new 4 [0] none 0 0) 2 0 0 0
        = some (s', effs) ∧
      ((sends_grant effs = true) ↔
        (((if (Replica.new 4 [0] none 0 0).current_term < 0 then none
           else (Replica.new 4 [0] none 0 0).voted_for) = none ∨
          (if (Replica.new 4 [0] none 0 0).current_term < 0 then none
           else (Replica.new 4 [0] none 0 0).voted_for) = some 2) ∧
         (vote_check_entry (Replica.new 4 [0] none 0 0)).index ≤ 0 ∧
         (vote_check_entry (Replica.new 4 [0] none 0 0)).term ≤ 0)) ∧
      (sends_grant effs = true → s'.voted_for = some 2) ∧
      (sends_grant effs = false →
        s'.voted_for = (if (Replica.new 4 [0] none 0 0).current_term < 0 then none
          else (Replica.new 4 [0] none 0 0).voted_for) ∧
        Effect.send 2 (.VoteResponse (Replica.new 4 [0] none 0 0).id
          (if (Replica.new 4 [0] none 0 0).current_term < 0 then 0
           else (Replica.new 4 [0] none 0 0).current_term) false) ∈ effs) :=
  c3_amended (Replica.new 4 [0] none 0 0) 2 0 0 0 (by decide) (by decide)

theorem applyStep_spec (s s1 : Replica) (e1 : List Effect)
    (h : applyStep s = some (s1, e1)) :
    s1.current_term = s.current_term ∧ s1.commit_index = s.commit_index ∧
    s1.last_applied = s.last_applied + 1 ∧ s1.state = s.state ∧
    (s1.log = s.log ∨
     (s.commit_index = s.last_applied + 2 ∧
      s1.log = s.log.filter (fun l => decide (s.last_applied + 1 < l.index)))) := by
  simp only [applyStep] at h
  split at h
  · split at h
    · simp at h
    · rename_i e heq
      split at h
      · rename_i hcond
        split at h
        · simp at h
        · split at h
          · rw [Option.some.injEq, Prod.mk.injEq] at h
            obtain ⟨h1, h2⟩ := h
            subst h1
            exact ⟨rfl, rfl, rfl, rfl, Or.inr ⟨by omega, rfl⟩⟩
          · rw [Option.some.injEq, Prod.mk.injEq] at h
            obtain ⟨h1, h2⟩ := h
            subst h1
            exact ⟨rfl, rfl, rfl, rfl, Or.inl rfl⟩
      · rw [Option.some.injEq, Prod.mk.injEq] at h
        obtain ⟨h1, h2⟩ := h
        subst h1
        exact ⟨rfl, rfl, rfl, rfl, Or.inl rfl⟩
  · simp at h

theorem applyStep_none_of_nil (s : Replica)
    (hlog : s.log = []) : applyStep s = none := by
  simp [applyStep, hlog]

theorem applyLoopFuel_spec (f : Nat) (s s2 : Replica) (e2 : List Effect)
    (h : applyLoopFuel f s = some (s2, e2)) :
    s2.current_term = s.current_term ∧ s2.commit_index = s.commit_index ∧
    s2.state = s.state := by
  induction f generalizing s e2 with
  | zero =>
    rw [applyLoopFuel] at h
    rw [Option.some.injEq, Prod.mk.injEq] at h
    obtain ⟨h1, _⟩ := h
    subst h1
    exact ⟨rfl, rfl, rfl⟩
  | succ f ih =>
    rw [applyLoopFuel] at h
    split at h
    · rw [Option.some.injEq, Prod.mk.injEq] at h
      obtain ⟨h1, _⟩ := h
      subst h1
      exact ⟨rfl, rfl, rfl⟩
    · split at h
      · simp at h
      · rename_i s1 e1 heq
        split at h
        · simp at h
        · rename_i s2b e2b heq2
          rw [Option.some.injEq, Prod.mk.injEq] at h
          obtain ⟨h1, _⟩ := h
          subst h1
          obtain ⟨t1, c1, la1, st1, _⟩ := applyStep_spec s s1 e1 heq
          obtain ⟨t2, c2, st2⟩ := ih s1 e2b heq2
          exact ⟨t2.trans t1, c2.trans c1, st2.trans st1⟩

theorem applyLoopFuel_nonempty (f : Nat) (s s2 : Replica) (e2 : List Effect)
    (h : applyLoopFuel f s = some (s2, e2))
    (hfuel : s.commit_index ≤ s.last_applied + f)
    (hne : s.log ≠ []) : s2.log ≠ [] := by
  induction f generalizing s e2 with
  | zero =>
    rw [applyLoopFuel] at h
    rw [Option.some.injEq, Prod.mk.injEq] at h
    obtain ⟨h1, _⟩ := h
    subst h1
    exact hne
  | succ f ih =>
    rw [applyLoopFuel] at h
    split at h
    · rw [Option.some.injEq, Prod.mk.injEq] at h
      obtain ⟨h1, _⟩ := h
      subst h1
      exact hne
    · rename_i hgt
      split at h
      · simp at h
      · rename_i s1 e1 heq
        split at h
        · simp at h
        · rename_i s2b e2b heq2
          rw [Option.some.injEq, Prod.mk.injEq] at h
          obtain ⟨h1, _⟩ := h
          subst h1
          obtain ⟨t1, c1, la1, st1, hlog⟩ := applyStep_spec s s1 e1 heq
          rcases hlog with hsame | ⟨hcm, hfilter⟩
          · exact ih s1 e2b heq2 (by omega) (hsame ▸ hne)
          · by_cases hnil : s1.log = []
            · exfalso
              cases f with
              | zero => omega
              | succ g =>
                rw [applyLoopFuel] at heq2
                rw [if_neg (show ¬ s1.commit_index ≤ s1.last_applied by omega)] at heq2
                rw [applyStep_none_of_nil s1 hnil] at heq2
                simp at heq2
            · exact ih s1 e2b heq2 (by omega) hnil

theorem advanceLoop_ge (s : Replica) (n c r : Nat)
    (h : advanceLoop s n c = some r) : c ≤ r := by
  induction n generalizing c with
  | zero =>
    rw [advanceLoop] at h
    obtain rfl := Option.some.inj h
    exact le_refl _
  | succ n ih =>
    rw [advanceLoop] at h
    split at h
    · obtain rfl := Option.some.inj h
      exact le_refl _
    · rename_i hstop
      split at h
      · split at h
        · split at h
          · simp at h
          · rename_i e heq
            have hrec := ih _ h
            by_cases ht : e.term = s.current_term
            · rw [if_pos ht] at hrec
              omega
            · rw [if_neg ht] at hrec
              exact hrec
        · simp at h
      · exact ih _ h

theorem leader_advance_spec (s s1 : Replica) (e1 : List Effect)
    (h : leader_advance s = some (s1, e1)) :
    ∃ c, s1 = { s with commit_index := c } ∧ s.commit_index ≤ c := by
  unfold leader_advance at h
  split at h
  · split at h
    · simp at h
    · split at h
      · split at h
        · simp at h
        · rename_i c hc
          dsimp only at h
          split at h
          · simp at h
          · rw [Option.some.injEq, Prod.mk.injEq] at h
            obtain ⟨h1, _⟩ := h
            exact ⟨c, h1.symm, advanceLoop_ge s (s.log.length - 1) s.commit_index c hc⟩
      · rw [Option.some.injEq, Prod.mk.injEq] at h
        obtain ⟨h1, _⟩ := h
        exact ⟨s.commit_index, h1.symm, le_refl _⟩
  · rw [Option.some.injEq, Prod.mk.injEq] at h
    obtain ⟨h1, _⟩ := h
    exact ⟨s.commit_index, h1.symm, le_refl _⟩

theorem apply_ready_entries_spec (s s' : Replica) (e : List Effect)
    (h : apply_ready_entries s = some (s', e)) :
    s'.current_term = s.current_term ∧ s.commit_index ≤ s'.commit_index ∧
    (s.log ≠ [] → s'.log ≠ []) := by
  unfold apply_ready_entries at h
  split at h
  · simp at h
  · rename_i s1 e1 heq1
    split at h
    · simp at h
    · rename_i s2 e2 heq2
      rw [Option.some.injEq, Prod.mk.injEq] at h
      obtain ⟨h1, _⟩ := h
      subst h1
      obtain ⟨c, hs1, hle⟩ := leader_advance_spec s s1 e1 heq1
      subst hs1
      obtain ⟨t2, c2, _⟩ := applyLoopFuel_spec _ _ _ _ heq2
      refine ⟨t2, ?_, ?_⟩
      · rw [c2]
        exact hle
      · intro hne
        exact applyLoopFuel_nonempty _ _ _ _ heq2 (by omega) hne

theorem processEntries_spec (es : List LogEntry) (s s1 : Replica)
    (h : processEntries s es = some s1) :
    ∃ l, s1 = { s with log := l } ∧ (s.log ≠ [] → l ≠ []) := by
  induction es generalizing s with
  | nil =>
    rw [processEntries] at h
    exact ⟨s.log, (Option.some.inj h).symm, fun hn => hn⟩
  | cons entry rest ih =>
    rw [processEntries] at h
    split at h
    · rename_i hin
      split at h
      · rename_i hoffle
        split at h
        · simp at h
        · rename_i existing heq
          have hk : entry.index - s.index_offset < s.log.length := by omega
          dsimp only at h
          split at h
          · rename_i hne0
            split at h
            · rename_i hpush
              obtain ⟨l, hl, hlne⟩ := ih _ h
              refine ⟨l, hl, fun _ => hlne (by simp)⟩
            · rename_i hpush
              exfalso
              apply hpush
              simp only [List.length_take]
              omega
          · rename_i hne0
            split at h
            · rename_i hpush
              exfalso
              omega
            · rename_i hpush
              obtain ⟨l, hl, hlne⟩ := ih _ h
              exact ⟨l, hl, hlne⟩
      · simp at h
    · rename_i hin
      dsimp only at h
      split at h
      · rename_i hpush
        obtain ⟨l, hl, hlne⟩ := ih _ h
        refine ⟨l, hl, fun _ => hlne (by simp)⟩
      · rename_i hpush
        obtain ⟨l, hl, hlne⟩ := ih _ h
        exact ⟨l, hl, hlne⟩

theorem vote_request_follower_spec (s s' : Replica) (f t lli llt : Nat)
    (e : List Effect)
    (h : process_vote_request_as_follower s f t lli llt = some (s', e)) :
    s.current_term ≤ s'.current_term ∧ s'.commit_index = s.commit_index ∧
    s'.log = s.log := by
  simp only [process_vote_request_as_follower] at h
  repeat' split at h
  all_goals try contradiction
  all_goals simp only [Option.some.injEq, Prod.mk.injEq] at h
  all_goals obtain ⟨h1, _⟩ := h
  all_goals subst h1
  all_goals try dsimp only [become_follower]
  all_goals exact ⟨by omega, rfl, rfl⟩

theorem append_request_follower_spec (s s' : Replica)
    (f t pli plt : Nat) (entries : List LogEntry) (ci : Nat) (e : List Effect)
    (h : process_append_entry_request_as_follower s f t pli plt entries ci
      = some (s', e)) :
    s'.current_term = s.current_term ∧ (s.log ≠ [] → s'.log ≠ []) := by
  simp only [process_append_entry_request_as_follower] at h
  split at h
  · rw [Option.some.injEq, Prod.mk.injEq] at h
    obtain ⟨h1, _⟩ := h
    subst h1
    exact ⟨rfl, fun hn => hn⟩
  · split at h
    · rw [Option.some.injEq, Prod.mk.injEq] at h
      obtain ⟨h1, _⟩ := h
      subst h1
      exact ⟨rfl, fun hn => hn⟩
    · split at h
      · split at h
        · contradiction
        · rename_i prevEntry heqp
          split at h
          · rw [Option.some.injEq, Prod.mk.injEq] at h
            obtain ⟨h1, _⟩ := h
            subst h1
            exact ⟨rfl, fun hn => hn⟩
          · split at h
            · contradiction
            · rename_i s1 heq1
              try dsimp only at h
              split at h
              · contradiction
              · rename_i s2 heq2
                rw [Option.some.injEq, Prod.mk.injEq] at h
                obtain ⟨h1, _⟩ := h
                subst h1
                obtain ⟨l, hl, hlne⟩ := processEntries_spec entries s s1 heq1
                subst hl
                split at heq2
                · split at heq2
                  · split at heq2
                    · contradiction
                    · rename_i tail heqt
                      obtain rfl := Option.some.inj heq2
                      exact ⟨rfl, fun hn => hlne hn⟩
                  · contradiction
                · obtain rfl := Option.some.inj heq2
                  exact ⟨rfl, fun hn => hlne hn⟩
      · contradiction

theorem leader_msg_spec (s s' : Replica) (m : Message) (e : List Effect)
    (h : process_message_as_leader s m = some (s', e)) :
    s.current_term ≤ s'.current_term ∧ s'.commit_index = s.commit_index ∧
    s'.log = s.log := by
  simp only [process_message_as_leader] at h
  repeat' split at h
  all_goals try contradiction
  all_goals simp only [Option.some.injEq, Prod.mk.injEq] at h
  all_goals obtain ⟨h1, _⟩ := h
  all_goals subst h1
  all_goals try dsimp only [become_follower]
  all_goals exact ⟨by omega, rfl, rfl⟩

theorem become_leader_spec (s : Replica) :
    (become_leader s).1.current_term = s.current_term ∧
    (become_leader s).1.commit_index = s.commit_index ∧
    (become_leader s).1.log ≠ [] := by
  refine ⟨rfl, rfl, by simp [become_leader]⟩

theorem vote_response_candidate_spec (s s' : Replica) (f t : Nat) (vg : Bool)
    (e : List Effect)
    (h : process_vote_response_as_candidate s f t vg = some (s', e)) :
    s.current_term ≤ s'.current_term ∧ s'.commit_index = s.commit_index ∧
    (s.log ≠ [] → s'.log ≠ []) := by
  simp only [process_vote_response_as_candidate, become_leader] at h
  repeat' split at h
  all_goals simp only [Option.some.injEq, Prod.mk.injEq] at h
  all_goals obtain ⟨h1, _⟩ := h
  all_goals subst h1
  all_goals try dsimp only [become_follower]
  all_goals refine ⟨by omega, rfl, fun hn => ?_⟩
  all_goals first
    | exact hn
    | simp

theorem message_follower_spec (s s' : Replica) (m : Message) (e : List Effect)
    (h : process_message_as_follower s m = some (s', e)) :
    s.current_term ≤ s'.current_term ∧ (s.log ≠ [] → s'.log ≠ []) := by
  cases m with
  | VoteRequest f t lli llt =>
    obtain ⟨h1, h2, h3⟩ := vote_request_follower_spec s s' f t lli llt e h
    exact ⟨h1, fun hn => h3 ▸ hn⟩
  | AppendEntryRequest f t pli plt entries ci =>
    obtain ⟨h1, h2⟩ := append_request_follower_spec s s' f t pli plt entries ci e h
    exact ⟨le_of_eq h1.symm, h2⟩
  | AppendEntryResponse f t su li mi =>
    simp only [process_message_as_follower] at h
    rw [Option.some.injEq, Prod.mk.injEq] at h
    obtain ⟨h1, _⟩ := h
    subst h1
    exact ⟨le_refl _, fun hn => hn⟩
  | VoteResponse f t vg =>
    simp only [process_message_as_follower] at h
    rw [Option.some.injEq, Prod.mk.injEq] at h
    obtain ⟨h1, _⟩ := h
    subst h1
    exact ⟨le_refl _, fun hn => hn⟩

theorem vote_request_candidate_spec (s s' : Replica) (m : Message)
    (e : List Effect)
    (h : process_vote_request_as_candidate s m = some (s', e)) :
    s.current_term ≤ s'.current_term ∧ s'.commit_index = s.commit_index ∧
    (s.log ≠ [] → s'.log ≠ []) := by
  cases m with
  | VoteRequest f t lli llt =>
    simp only [process_vote_request_as_candidate] at h
    split at h
    · rename_i hgt
      split at h
      · simp at h
      · rename_i s2 e2 heq2
        rw [Option.some.injEq, Prod.mk.injEq] at h
        obtain ⟨h1, _⟩ := h
        subst h1
        obtain ⟨ht, hc, hl⟩ := vote_request_follower_spec
          (become_follower s t) s2 f t lli llt e2 heq2
        refine ⟨?_, hc.trans rfl, fun hn => ?_⟩
        · have : (become_follower s t).current_term = t := rfl
          omega
        · rw [hl]
          exact hn
    · rw [Option.some.injEq, Prod.mk.injEq] at h
      obtain ⟨h1, _⟩ := h
      subst h1
      exact ⟨le_refl _, rfl, fun hn => hn⟩
  | AppendEntryRequest f t pli plt entries ci =>
    simp only [process_vote_request_as_candidate] at h
    rw [Option.some.injEq, Prod.mk.injEq] at h
    obtain ⟨h1, _⟩ := h
    subst h1
    exact ⟨le_refl _, rfl, fun hn => hn⟩
  | AppendEntryResponse f t su li mi =>
    simp only [process_vote_request_as_candidate] at h
    rw [Option.some.injEq, Prod.mk.injEq] at h
    obtain ⟨h1, _⟩ := h
    subst h1
    exact ⟨le_refl _, rfl, fun hn => hn⟩
  | VoteResponse f t vg =>
    simp only [process_vote_request_as_candidate] at h
    rw [Option.some.injEq, Prod.mk.injEq] at h
    obtain ⟨h1, _⟩ := h
    subst h1
    exact ⟨le_refl _, rfl, fun hn => hn⟩

theorem append_request_candidate_spec (s s' : Replica) (m : Message)
    (e : List Effect)
    (h : process_append_entry_request_as_candidate s m = some (s', e)) :
    s.current_term ≤ s'.current_term ∧ (s.log ≠ [] → s'.log ≠ []) := by
  cases m with
  | AppendEntryRequest f t pli plt entries ci =>
    simp only [process_append_entry_request_as_candidate] at h
    split at h
    · rename_i hge
      split at h
      · simp at h
      · rename_i s2 e2 heq2
        rw [Option.some.injEq, Prod.mk.injEq] at h
        obtain ⟨h1, _⟩ := h
        subst h1
        obtain ⟨ht, hl⟩ := message_follower_spec (become_follower s t) s2 _ e2 heq2
        refine ⟨?_, fun hn => hl hn⟩
        have : (become_follower s t).current_term = t := rfl
        omega
    · rw [Option.some.injEq, Prod.mk.injEq] at h
      obtain ⟨h1, _⟩ := h
      subst h1
      exact ⟨le_refl _, fun hn => hn⟩
  | VoteRequest f t lli llt =>
    simp only [process_append_entry_request_as_candidate] at h
    rw [Option.some.injEq, Prod.mk.injEq] at h
    obtain ⟨h1, _⟩ := h
    subst h1
    exact ⟨le_refl _, fun hn => hn⟩
  | AppendEntryResponse f t su li mi =>
    simp only [process_append_entry_request_as_candidate] at h
    rw [Option.some.injEq, Prod.mk.injEq] at h
    obtain ⟨h1, _⟩ := h
    subst h1
    exact ⟨le_refl _, fun hn => hn⟩
  | VoteResponse f t vg =>
    simp only [process_append_entry_request_as_candidate] at h
    rw [Option.some.injEq, Prod.mk.injEq] at h
    obtain ⟨h1, _⟩ := h
    subst h1
    exact ⟨le_refl _, fun hn => hn⟩

theorem become_candidate_spec (s s' : Replica) (e : List Effect)
    (h : become_candidate s = some (s', e)) :
    s.current_term ≤ s'.current_term ∧ s'.commit_index = s.commit_index ∧
    (s.log ≠ [] → s'.log ≠ []) := by
  simp only [become_candidate] at h
  split at h
  · simp at h
  · rename_i tail heqt
    try dsimp only at h
    split at h
    · rw [Option.some.injEq, Prod.mk.injEq] at h
      obtain ⟨h1, _⟩ := h
      subst h1
      obtain ⟨ht, hc, hl⟩ := become_leader_spec
        { s with current_term := s.current_term + 1, state := .Candidate,
                 current_votes := some [s.id], voted_for := some s.id }
      refine ⟨?_, hc, fun _ => hl⟩
      rw [ht]
      exact (show s.current_term ≤ s.current_term + 1 by omega)
    · rw [Option.some.injEq, Prod.mk.injEq] at h
      obtain ⟨h1, _⟩ := h
      subst h1
      exact ⟨(show s.current_term ≤ s.current_term + 1 by omega), rfl, fun hn => hn⟩

theorem load_new_transitions_spec (pending : List Nat) (s : Replica) :
    (load_new_transitions s pending).1.current_term = s.current_term ∧
    (load_new_transitions s pending).1.commit_index = s.commit_index ∧
    (s.log ≠ [] → (load_new_transitions s pending).1.log ≠ []) := by
  induction pending generalizing s with
  | nil => exact ⟨rfl, rfl, fun hn => hn⟩
  | cons t rest ih =>
    rw [load_new_transitions]
    split
    · dsimp only
      obtain ⟨h1, h2, h3⟩ := ih { s with
        log := s.log ++ [⟨s.log.length, s.current_term, t⟩] }
      exact ⟨h1, h2, fun _ => h3 (by simp)⟩
    · exact ih s

/-- C8 (amended): under every step of the replica — message handlers in
all three roles, the election-timeout transition, transition draining, and
`apply_ready_entries` — `current_term` is non-decreasing; and the ONLY step
that can assign `commit_index` a strictly smaller value is the
follower/candidate AppendEntryRequest handler (which does so when its entry
processing truncates the log below `commit_index`). -/
theorem c8_amended (k : StepKind) (s s' : Replica) (h : Step k s s') :
    s.current_term ≤ s'.current_term ∧
    (s'.commit_index < s.commit_index → k = StepKind.appendReq) := by
  cases h with
  | voteReqF s s' f t lli llt effs hrole hh =>
    obtain ⟨h1, h2, _⟩ := vote_request_follower_spec s s' f t lli llt effs hh
    exact ⟨h1, fun hlt => absurd hlt (by omega)⟩
  | appendReqF s s' f t pli plt entries ci effs hrole hh =>
    obtain ⟨h1, _⟩ := append_request_follower_spec s s' f t pli plt entries ci effs hh
    exact ⟨le_of_eq h1.symm, fun _ => rfl⟩
  | leaderMsgStep s s' m effs hrole hh =>
    obtain ⟨h1, h2, _⟩ := leader_msg_spec s s' m effs hh
    exact ⟨h1, fun hlt => absurd hlt (by omega)⟩
  | candVoteReq s s' m effs hrole hh =>
    obtain ⟨h1, h2, _⟩ := vote_request_candidate_spec s s' m effs hh
    exact ⟨h1, fun hlt => absurd hlt (by omega)⟩
  | candAppendReq s s' m effs hrole hh =>
    obtain ⟨h1, _⟩ := append_request_candidate_spec s s' m effs hh
    exact ⟨h1, fun _ => rfl⟩
  | candVoteResp s s' f t vg effs hrole hh =>
    obtain ⟨h1, h2, _⟩ := vote_response_candidate_spec s s' f t vg effs hh
    exact ⟨h1, fun hlt => absurd hlt (by omega)⟩
  | timeout s s' effs hrole hh =>
    obtain ⟨h1, h2, _⟩ := become_candidate_spec s s' effs hh
    exact ⟨h1, fun hlt => absurd hlt (by omega)⟩
  | loadT s s' pending effs hh =>
    obtain ⟨h1, h2, _⟩ := load_new_transitions_spec pending s
    rw [hh] at h1 h2
    dsimp only at h1 h2
    exact ⟨le_of_eq h1.symm, fun hlt => absurd hlt (by omega)⟩
  | applyE s s' effs hh =>
    obtain ⟨h1, h2, _⟩ := apply_ready_entries_spec s s' effs hh
    exact ⟨le_of_eq h1.symm, fun hlt => absurd hlt (by omega)⟩

/-- C8 witness: the election-timeout step from the fresh follower
`c8w_pre` to `c8w_post` instantiates the amended claim — the term does not
decrease and the step is not the AppendEntryRequest handler. -/
theorem c8w_holds :
    c8w_pre.current_term ≤ c8w_post.current_term ∧
    (c8w_post.commit_index < c8w_pre.commit_index →
      StepKind.electionTimeout = StepKind.appendReq) :=
  c8_amended .electionTimeout c8w_pre c8w_post
    (Step.timeout c8w_pre c8w_post c8w_effs (by decide) (by decide))

/-- C10 (amended): in every state reachable from construction the retained
log vector is non-empty, so the tail access at physical position
`log.len() - 1` performed by `become_candidate` is in bounds; the
vote-grant check and the apply loop, by contrast, index at positions
shifted by `index_offset`, which can be OUT of bounds in reachable states
(see the counterexample). -/
theorem c10_amended (s : Replica) (h : Reachable s) : s.log ≠ [] := by
  induction h with
  | init id peer_ids ls delta noop => simp [Replica.new]
  | step k s1 s2 hreach hstep ih =>
    cases hstep with
    | voteReqF s1 s2 f t lli llt effs hrole hh =>
      obtain ⟨_, _, hlog⟩ := vote_request_follower_spec s1 s2 f t lli llt effs hh
      rw [hlog]
      exact ih
    | appendReqF s1 s2 f t pli plt entries ci effs hrole hh =>
      exact (append_request_follower_spec s1 s2 f t pli plt entries ci effs hh).2 ih
    | leaderMsgStep s1 s2 m effs hrole hh =>
      obtain ⟨_, _, hlog⟩ := leader_msg_spec s1 s2 m effs hh
      rw [hlog]
      exact ih
    | candVoteReq s1 s2 m effs hrole hh =>
      exact (vote_request_candidate_spec s1 s2 m effs hh).2.2 ih
    | candAppendReq s1 s2 m effs hrole hh =>
      exact (append_request_candidate_spec s1 s2 m effs hh).2 ih
    | candVoteResp s1 s2 f t vg effs hrole hh =>
      exact (vote_response_candidate_spec s1 s2 f t vg effs hh).2.2 ih
    | timeout s1 s2 effs hrole hh =>
      exact (become_candidate_spec s1 s2 effs hh).2.2 ih
    | loadT s1 s2 pending effs hh =>
      have h3 := (load_new_transitions_spec pending s1).2.2
      rw [hh] at h3
      exact h3 ih
    | applyE s1 s2 effs hh =>
      exact (apply_ready_entries_spec s1 s2 effs hh).2.2 ih

/-- C10 witness: the freshly constructed replica (no snapshot) is
reachable and its log is non-empty. -/
theorem c10w_holds : (Replica.new 3 [1] none 0 7).log ≠ [] :=
  c10_amended (Replica.new 3 [1] none 0 7) (Reachable.init 3 [1] none 0 7)

end LittleRaft
